import Mathlib

/-!
Formal model of the Duty Tracker fairness and roster-import subsystem
(app/crud.py, app/main.py, app/models.py), with theorems checking the
specification claims against the code.

Modelling conventions:
- database tables are lists of records, in insertion order;
- Python dictionaries are insertion-ordered association lists
  (assignment to an existing key updates the value in place, a new key
  is appended at the end, iteration follows that order);
- timestamps (datetime.utcnow) are integer seconds, passed explicitly
  as a parameter wherever the code reads the clock;
- float arithmetic is modelled exactly over the rationals
  (the literal 0.1 becomes 1/10);
- a raised Python exception is modelled as the value none.
-/

namespace DutyTracker

/-- Personnel row (app/models.py, class Personnel): id, rank, name,
is_active.  The created_at column is never read by the modelled code
and is omitted. -/
structure Personnel where
  id : Nat
  rank : String
  name : String
  isActive : Bool
deriving DecidableEq, Repr

/-- Derived property full_name = rank + " " + name (app/models.py). -/
def Personnel.fullName (p : Personnel) : String :=
  p.rank ++ " " ++ p.name

/-- PostType row (app/models.py, class PostType).  Only the columns the
modelled code reads are kept: id, unique name, difficulty_weight.
difficulty_weight is an SQL Integer (default 1); the schema layer
(app/schemas.py, PostTypeCreate) accepts any int for it. -/
structure PostType where
  id : Nat
  name : String
  difficultyWeight : Int
deriving DecidableEq, Repr

/-- Post row (app/models.py, class Post): id, name, nullable foreign
key post_type_id, is_active. -/
structure Post where
  id : Nat
  name : String
  postTypeId : Option Nat
  isActive : Bool
deriving DecidableEq, Repr

/-- A calendar date (year, month, day), the value of
datetime.fromisoformat(duty_date).date(). -/
abbrev Date := Nat × Nat × Nat

/-- Assignment row (app/models.py, class Assignment).  The id and
created_at columns are never read by the modelled code and are
omitted; duty_date is the date value the chat importer stores. -/
structure Assignment where
  personId : Nat
  postId : Nat
  dutyDate : Date
  startTime : String
  endTime : String
  status : String
  notes : String
deriving DecidableEq, Repr

/-- FairnessTracking row (app/models.py, class FairnessTracking).
The numeric columns have SQL default 0 and are normalised to 0 by
update_fairness_tracking when NULL (crud.py lines 104-109); the model
represents the post-normalisation values, so they are plain numbers.
last_assignment_date is nullable and is kept as an Option. -/
structure FairnessRec where
  personId : Nat
  totalAssignments : Nat
  totalDifficultyPoints : Int
  lastAssignmentDate : Option Int
  consecutiveStandby : Nat
deriving DecidableEq, Repr

/-- The whole relational store, one list per table, in row order. -/
structure Store where
  personnel : List Personnel
  postTypes : List PostType
  posts : List Post
  assignments : List Assignment
  fairness : List FairnessRec
deriving DecidableEq, Repr

/-- Resolution of the post.post_type relationship: None when the
foreign key is NULL or dangling. -/
def postTypeOf (s : Store) (p : Post) : Option PostType :=
  match p.postTypeId with
  | none => none
  | some i => s.postTypes.find? (fun pt => pt.id == i)

/-- The FairnessTracking record created lazily by
update_fairness_tracking (crud.py lines 94-101): all counters 0,
no last date. -/
def freshFairness (personId : Nat) : FairnessRec :=
  { personId := personId
    totalAssignments := 0
    totalDifficultyPoints := 0
    lastAssignmentDate := none
    consecutiveStandby := 0 }

/-- The mutation update_fairness_tracking performs on the fetched (or
freshly created) record (crud.py lines 111-127): resolve the post and
its difficulty weight fail-soft (weight 1 when the post is missing,
the post type is missing, or the stored weight is falsy, i.e. 0 or
NULL, via the Python expression difficulty_weight or 1); increment
total_assignments, add the weight to total_difficulty_points, stamp
last_assignment_date with the current instant; then run the
standby-streak branch.  That branch evaluates post.post_type.name
guarded only by post (line 124), so a post whose post type cannot be
resolved raises AttributeError, modelled as none. -/
def updateFairnessRecord (s : Store) (postId : Nat) (now : Int)
    (fairness : FairnessRec) : Option FairnessRec :=
  let post := s.posts.find? (fun p => p.id == postId)
  let difficultyWeight : Int :=
    match post with
    | some p =>
      match postTypeOf s p with
      | some pt => if pt.difficultyWeight == 0 then 1 else pt.difficultyWeight
      | none => 1
    | none => 1
  let fairness := { fairness with
    totalAssignments := fairness.totalAssignments + 1
    totalDifficultyPoints := fairness.totalDifficultyPoints + difficultyWeight
    lastAssignmentDate := some now }
  match post with
  | none => some fairness
  | some p =>
    match postTypeOf s p with
    | none => none
    | some pt =>
      if pt.name != "Stand by" then
        some { fairness with consecutiveStandby := 0 }
      else
        some { fairness with consecutiveStandby := fairness.consecutiveStandby + 1 }

/-- Apply an update to the first record of the list with the given
person_id (the ORM object found by query(...).first() is mutated in
place), or to a freshly created record appended at the end when none
exists (db.add). -/
def updateFairnessList (u : FairnessRec → Option FairnessRec) (personId : Nat) :
    List FairnessRec → Option (List FairnessRec)
  | [] => (u (freshFairness personId)).map (fun r => [r])
  | r :: rs =>
    if r.personId == personId then (u r).map (fun r2 => r2 :: rs)
    else (updateFairnessList u personId rs).map (fun rs2 => r :: rs2)

/-- update_fairness_tracking (crud.py lines 87-127). -/
def updateFairnessTracking (s : Store) (personId postId : Nat) (now : Int) :
    Option Store :=
  (updateFairnessList (updateFairnessRecord s postId now) personId s.fairness).map
    (fun fl => { s with fairness := fl })

/-- Replay update_fairness_tracking over a list of assignments, in
order, stopping at the first raised exception. -/
def replayAssignments (st : Store) (now : Int) : List Assignment → Option Store
  | [] => some st
  | a :: rest =>
    match updateFairnessTracking st a.personId a.postId now with
    | none => none
    | some st2 => replayAssignments st2 now rest

/-- recalculate_fairness (app/main.py lines 334-359): delete every
FairnessTracking record, then replay update_fairness_tracking for
every stored assignment in the natural return order of the store. -/
def recalculateFairness (s : Store) (now : Int) : Option Store :=
  replayAssignments { s with fairness := [] } now s.assignments

/-- A FairnessTracking record with its timestamp forgotten, used to
compare two recalculation runs made at different instants. -/
def eraseDate (r : FairnessRec) : FairnessRec :=
  { r with lastAssignmentDate := none }

/-- Number of whole days between two instants, the value of
(utcnow - last).days on timestamps in seconds (timedelta normalises
with floor division). -/
def daysSince (now d : Int) : Int :=
  (now - d).fdiv 86400

/-- One row of the fairness statistics response
(app/schemas.py, FairnessStats).  The float fairness_score is
modelled exactly over the rationals. -/
structure FairnessStatsRow where
  personId : Nat
  personName : String
  totalAssignments : Nat
  totalDifficultyPoints : Int
  lastAssignmentDate : Option Int
  consecutiveStandby : Nat
  fairnessScore : ℚ
deriving DecidableEq, Repr

/-- The row get_fairness_stats builds for one (person, tracking) pair
(crud.py lines 140-169): with tracking, score starts at
total_difficulty_points and subtracts days_since times 0.1 when a
last date exists; without tracking, all counters and the score are 0. -/
def mkFairnessStatsRow (now : Int) (p : Personnel) (tracking : Option FairnessRec) :
    FairnessStatsRow :=
  match tracking with
  | some t =>
    let score : ℚ := (t.totalDifficultyPoints : ℚ)
    let score : ℚ :=
      match t.lastAssignmentDate with
      | some d => score - (daysSince now d : ℚ) * (1 / 10)
      | none => score
    { personId := p.id
      personName := p.fullName
      totalAssignments := t.totalAssignments
      totalDifficultyPoints := t.totalDifficultyPoints
      lastAssignmentDate := t.lastAssignmentDate
      consecutiveStandby := t.consecutiveStandby
      fairnessScore := score }
  | none =>
    { personId := p.id
      personName := p.fullName
      totalAssignments := 0
      totalDifficultyPoints := 0
      lastAssignmentDate := none
      consecutiveStandby := 0
      fairnessScore := 0 }

/-- The rows of query(Personnel, FairnessTracking).outerjoin(...)
filtered to active personnel (crud.py lines 132-137): one row per
matching tracking record, or a single row with no tracking. -/
def outerJoinRows (s : Store) : List (Personnel × Option FairnessRec) :=
  (s.personnel.filter (fun p => p.isActive)).flatMap (fun p =>
    let ms := s.fairness.filter (fun t => t.personId == p.id)
    if ms.isEmpty then [(p, none)] else ms.map (fun t => (p, some t)))

/-- Comparison key of sorted(stats, key=lambda x: x.fairness_score):
ascending fairness score.  The Python sort is stable; no claim below
depends on the order of entries with equal scores, so the model may
use any sort that respects this relation. -/
def scoreLE (a b : FairnessStatsRow) : Prop :=
  a.fairnessScore ≤ b.fairnessScore

instance : DecidableRel scoreLE :=
  fun a b => inferInstanceAs (Decidable (a.fairnessScore ≤ b.fairnessScore))

instance : IsTotal FairnessStatsRow scoreLE :=
  ⟨fun a b => le_total a.fairnessScore b.fairnessScore⟩

instance : IsTrans FairnessStatsRow scoreLE :=
  ⟨fun _ _ _ hab hbc => le_trans hab hbc⟩

/-- get_fairness_stats (crud.py lines 130-172). -/
def getFairnessStats (s : Store) (now : Int) : List FairnessStatsRow :=
  List.insertionSort scoreLE ((outerJoinRows s).map (fun pr => mkFairnessStatsRow now pr.1 pr.2))

/-- The fairness score as the specification words it for a person with
a tracking record: total_difficulty_points minus 0.1 times
days_since(last_assignment_date), omitting the subtraction when the
last date is null.  Stated separately from the code model so the two
can be compared. -/
def specFairnessScore (now : Int) (t : FairnessRec) : ℚ :=
  match t.lastAssignmentDate with
  | some d => (t.totalDifficultyPoints : ℚ) - (1 / 10) * (daysSince now d : ℚ)
  | none => (t.totalDifficultyPoints : ℚ)

/-- Python round() to an integer: round half to even on the exact
rational value (the source rounds IEEE floats; the model computes the
same bankers rounding on the exact quotient). -/
def pyRound (q : ℚ) : Int :=
  let f : Int := q.floor
  let r : ℚ := q - (f : ℚ)
  if r < 1 / 2 then f
  else if 1 / 2 < r then f + 1
  else if f % 2 = 0 then f else f + 1

/-- Python round(x, 1): one decimal place. -/
def round1 (q : ℚ) : ℚ :=
  (pyRound (q * 10) : ℚ) / 10

/-- Lookup in an insertion-ordered association list (Python dict
read d[k] / d.get(k)): first entry with the key. -/
def dictGet {β : Type} (m : List (String × β)) (k : String) : Option β :=
  (m.find? (fun kv => kv.1 == k)).map (fun kv => kv.2)

/-- Python counter-dict step (if k not in d: d[k] = 0; d[k] += 1):
the first entry with the key is incremented in place, a missing key is
appended with count 1. -/
def bumpCount : List (String × Nat) → String → List (String × Nat)
  | [], k => [(k, 1)]
  | kv :: rest, k =>
    if kv.1 == k then (kv.1, kv.2 + 1) :: rest
    else kv :: bumpCount rest k

/-- Per-person accumulator of get_post_distribution_stats
(crud.py lines 190-201): identity fields plus a counter dict keyed by
post type name. -/
structure PersonAgg where
  personId : Nat
  personName : String
  rank : String
  postTypes : List (String × Nat)
deriving DecidableEq, Repr

/-- One row of a person's post_assignments list in the distribution
response (crud.py lines 222-227). -/
structure PostAssignmentStat where
  postType : String
  count : Nat
  percentageOfTotal : ℚ
  percentageOfPerson : ℚ
deriving DecidableEq, Repr

/-- One person_stats entry of the distribution response
(crud.py lines 211-231). -/
structure PersonDistStat where
  personId : Nat
  personName : String
  rank : String
  postAssignments : List PostAssignmentStat
  totalAssignments : Nat
deriving DecidableEq, Repr

/-- The full response of get_post_distribution_stats
(crud.py lines 236-241). -/
structure DistStats where
  personnelStats : List PersonDistStat
  postTypeTotals : List (String × Nat)
  totalAssignments : Nat
  totalPersonnel : Nat
deriving DecidableEq, Repr

/-- The rows of query(Assignment).join(Personnel).join(Post)
.join(PostType).filter(Personnel.is_active == True) (crud.py lines
178-180): inner joins via the primary keys, which are unique in a
well-formed store, so the first matching row stands for the join
partner. -/
def joinedAssignments (s : Store) : List (Personnel × PostType) :=
  s.assignments.filterMap (fun a =>
    match s.personnel.find? (fun p => p.id == a.personId) with
    | none => none
    | some person =>
      if person.isActive then
        match s.posts.find? (fun po => po.id == a.postId) with
        | none => none
        | some post =>
          match postTypeOf s post with
          | none => none
          | some pt => some (person, pt)
      else none)

/-- The person_post_stats update for one assignment row (crud.py lines
187-201): ensure the person key exists, then increment its per-type
counter; existing identity fields are left untouched. -/
def upsertPersonAgg : List (String × PersonAgg) → String → Personnel → String →
    List (String × PersonAgg)
  | [], key, person, ptName =>
    [(key, { personId := person.id, personName := person.fullName,
             rank := person.rank, postTypes := bumpCount [] ptName })]
  | kv :: rest, key, person, ptName =>
    if kv.1 == key then
      (kv.1, { kv.2 with postTypes := bumpCount kv.2.postTypes ptName }) :: rest
    else kv :: upsertPersonAgg rest key person ptName

/-- The aggregation loop of get_post_distribution_stats (crud.py lines
186-206): fold all joined rows into (person_post_stats,
post_type_totals). -/
def aggregateRows (rows : List (Personnel × PostType)) :
    List (String × PersonAgg) × List (String × Nat) :=
  rows.foldl (fun acc row =>
    (upsertPersonAgg acc.1 (toString row.1.id ++ "_" ++ row.1.fullName) row.1 row.2.name,
     bumpCount acc.2 row.2.name))
    ([], [])

/-- Descending order on per-type counts, the key of
post_assignments.sort(key=lambda x: x.count, reverse=True). -/
def countGE (a b : PostAssignmentStat) : Prop :=
  b.count ≤ a.count

instance : DecidableRel countGE :=
  fun a b => inferInstanceAs (Decidable (b.count ≤ a.count))

instance : IsTotal PostAssignmentStat countGE :=
  ⟨fun a b => le_total b.count a.count⟩

instance : IsTrans PostAssignmentStat countGE :=
  ⟨fun _ _ _ hab hbc => le_trans hbc hab⟩

/-- Descending order on total assignments, the key of
results.sort(key=lambda x: x.total_assignments, reverse=True). -/
def totalGE (a b : PersonDistStat) : Prop :=
  b.totalAssignments ≤ a.totalAssignments

instance : DecidableRel totalGE :=
  fun a b => inferInstanceAs (Decidable (b.totalAssignments ≤ a.totalAssignments))

instance : IsTotal PersonDistStat totalGE :=
  ⟨fun a b => le_total b.totalAssignments a.totalAssignments⟩

instance : IsTrans PersonDistStat totalGE :=
  ⟨fun _ _ _ hab hbc => le_trans hbc hab⟩

/-- Build one person_stats entry (crud.py lines 210-231).  The code
indexes post_type_totals[post_type] directly; the key is always
present because every per-person count was also counted into the
totals dict, so the model reads it with a default that is never
taken. -/
def mkPersonDistStat (totals : List (String × Nat)) (agg : PersonAgg) : PersonDistStat :=
  let total := (agg.postTypes.map (fun kv => kv.2)).sum
  let pas := agg.postTypes.map (fun kv =>
    let tot := (dictGet totals kv.1).getD 0
    { postType := kv.1
      count := kv.2
      percentageOfTotal := round1 (if 0 < tot then ((kv.2 : ℚ) / (tot : ℚ)) * 100 else 0)
      percentageOfPerson :=
        if 0 < total then round1 (((kv.2 : ℚ) / (total : ℚ)) * 100) else 0 })
  { personId := agg.personId
    personName := agg.personName
    rank := agg.rank
    postAssignments := List.insertionSort countGE pas
    totalAssignments := total }

/-- get_post_distribution_stats (crud.py lines 175-241). -/
def getPostDistributionStats (s : Store) : DistStats :=
  let agg := aggregateRows (joinedAssignments s)
  let results := agg.1.map (fun kv => mkPersonDistStat agg.2 kv.2)
  { personnelStats := List.insertionSort totalGE results
    postTypeTotals := agg.2
    totalAssignments := (agg.2.map (fun kv => kv.2)).sum
    totalPersonnel := results.length }

/-! ### String primitives for the chat importer

The Python string operations the importer uses, written over character
lists so that concrete runs reduce inside the kernel. -/

/-- Python str.upper() (the names involved are ASCII). -/
def pyUpper (s : String) : String :=
  String.mk (s.toList.map Char.toUpper)

/-- Python str.strip(): drop whitespace from both ends. -/
def pyStrip (s : String) : String :=
  String.mk (((s.toList.dropWhile Char.isWhitespace).reverse.dropWhile
    Char.isWhitespace).reverse)

/-- Split a character list at every occurrence of a separator,
keeping empty pieces — Python str.split(sep). -/
def splitOnCh (sep : Char) : List Char → List (List Char)
  | [] => [[]]
  | x :: xs =>
    match splitOnCh sep xs with
    | [] => [[]]
    | g :: gs => if x == sep then [] :: g :: gs else (x :: g) :: gs

/-- Python chat_text.split(newline). -/
def pySplitLines (s : String) : List String :=
  (splitOnCh (Char.ofNat 10) s.toList).map (fun cs => String.mk cs)

/-- One step of whitespace-run splitting, folded from the right. -/
def splitWsAux (c : Char) (acc : List (List Char)) : List (List Char) :=
  if c.isWhitespace then [] :: acc
  else
    match acc with
    | [] => [[c]]
    | g :: gs => (c :: g) :: gs

/-- Python str.split() with no arguments: split on whitespace runs,
dropping empty pieces. -/
def splitWs (s : String) : List String :=
  ((s.toList.foldr splitWsAux [[]]).filter (fun g => !g.isEmpty)).map
    (fun g => String.mk g)

/-- Substring containment, the Python expression needle in line. -/
def isInfixCh (n : List Char) : List Char → Bool
  | [] => n.isEmpty
  | c :: cs => n.isPrefixOf (c :: cs) || isInfixCh n cs

/-- Python needle in hay for strings. -/
def containsSub (needle hay : String) : Bool :=
  isInfixCh needle.toList hay.toList

/-- Python line.startswith((p1, ..., pn)) against one prefix. -/
def strStartsWith (p line : String) : Bool :=
  p.toList.isPrefixOf line.toList

/-- Python int(digits) for a run of ASCII digits, none for anything
else or for the empty string. -/
def digitsToNat? (l : List Char) : Option Nat :=
  if l.isEmpty then none
  else if l.all Char.isDigit then
    some (l.foldl (fun n c => n * 10 + (c.toNat - 48)) 0)
  else none

/-- Model of datetime.fromisoformat(s).date() for the ISO calendar
date form YYYY-MM-DD the importer is given; anything else fails and
triggers the fallback to the current date (crud.py lines 310-315). -/
def parseIsoDate (s : String) : Option Date :=
  match splitOnCh (Char.ofNat 45) s.toList with
  | [ys, ms, ds] =>
    if ys.length == 4 && ms.length == 2 && ds.length == 2 then
      match digitsToNat? ys, digitsToNat? ms, digitsToNat? ds with
      | some y, some m, some d =>
        if 1 ≤ m && m ≤ 12 && 1 ≤ d && d ≤ 31 then some (y, m, d) else none
      | _, _, _ => none
    else none
  | _ => none

/-! ### The chat importer (crud.py, parse_and_create_chat_assignments) -/

/-- The rank alternatives of the extraction pattern
(PV2|PFC|SPC|CPL|SGT|SSG|SFC|MSG|SGM), tried in order. -/
def ranks : List String :=
  ["PV2", "PFC", "SPC", "CPL", "SGT", "SSG", "SFC", "MSG", "SGM"]

/-- Try to match the regular expression
rank whitespace+ letter letter-or-hyphen* at the head of the text:
returns the rank, the captured name token, and how many characters the
whole match consumed. -/
def matchRankAt (l : List Char) : Option (String × String × Nat) :=
  match ranks.find? (fun r => r.toList.isPrefixOf l) with
  | none => none
  | some r =>
    let a := l.drop r.toList.length
    let ws := a.takeWhile (fun c => c.isWhitespace)
    match ws with
    | [] => none
    | _ =>
      match a.drop ws.length with
      | [] => none
      | c :: cs =>
        if c.isAlpha then
          let nm := cs.takeWhile (fun ch => ch.isAlpha || ch == Char.ofNat 45)
          some (r, String.mk (c :: nm), r.toList.length + ws.length + 1 + nm.length)
        else none

/-- The scan of re.findall: at each position try the pattern; on a
match, emit it and continue after its end, otherwise advance one
character.  Every step consumes at least one character, so fuel equal
to the length of the text never runs out before the text does. -/
def findMatchesAux : Nat → List Char → List (String × String)
  | 0, _ => []
  | _, [] => []
  | fuel + 1, c :: cs =>
    match matchRankAt (c :: cs) with
    | some (rank, nm, k) => (rank, nm) :: findMatchesAux fuel ((c :: cs).drop k)
    | none => findMatchesAux fuel cs

/-- re.findall of the rank-name pattern over one line (crud.py line 388). -/
def findMatches (line : String) : List (String × String) :=
  findMatchesAux line.toList.length line.toList

/-- Python dict assignment d[k] = v: the first entry with the key is
overwritten in place, a missing key is appended. -/
def dictInsert {β : Type} : List (String × β) → String → β → List (String × β)
  | [], k, v => [(k, v)]
  | kv :: rest, k, v =>
    if kv.1 == k then (k, v) :: rest
    else kv :: dictInsert rest k v

/-- The personnel_map building loop (crud.py lines 322-330): for each
person insert the uppercased full name, the uppercased name, and the
uppercased last whitespace-token of the name.  p.name.split()[-1]
raises IndexError on a name with no token, modelled as none. -/
def buildPersonnelMapAux (acc : List (String × Personnel)) :
    List Personnel → Option (List (String × Personnel))
  | [] => some acc
  | p :: ps =>
    let acc := dictInsert acc (pyUpper p.fullName) p
    let acc := dictInsert acc (pyUpper p.name) p
    match (splitWs p.name).getLast? with
    | none => none
    | some ln => buildPersonnelMapAux (dictInsert acc (pyUpper ln) p) ps

/-- The personnel_map over a personnel list, starting empty. -/
def buildPersonnelMap (ps : List Personnel) : Option (List (String × Personnel)) :=
  buildPersonnelMapAux [] ps

/-- get_personnel(db) with its default arguments skip=0, limit=100
(crud.py line 14-16): the active personnel, first hundred rows. -/
def activePersonnelPage (s : Store) : List Personnel :=
  ((s.personnel.filter (fun p => p.isActive)).drop 0).take 100

/-- The post_types lookup dict {pt.name.upper(): pt} (crud.py line 334). -/
def buildPostTypesDict (pts : List PostType) : List (String × PostType) :=
  pts.foldl (fun m pt => dictInsert m (pyUpper pt.name) pt) []

/-- The fixed post_mappings table (crud.py lines 338-347):
section key, post type name, post name. -/
def postMappings : List (String × String × String) :=
  [("SOG", "SOG", "SOG"), ("CQ", "CQ", "CQ"), ("ECP1", "ECP", "ECP1"),
   ("ECP2", "ECP", "ECP2"), ("ECP3", "ECP", "ECP3"), ("VCP", "VCP", "VCP"),
   ("ROVER", "ROVER", "ROVER"), ("STAND BY", "Stand by", "Stand by")]

/-- Lookup in post_mappings. -/
def lookupMapping (k : String) : Option (String × String) :=
  (postMappings.find? (fun e => e.1 == k)).map (fun e => e.2)

/-- The section-header chain of elif tests (crud.py lines 360-383), in
source order; the value is what current_post_type is set to. -/
def headerOf (line : String) : Option String :=
  if containsSub "SOG:" line then some "SOG"
  else if containsSub "CQ:" line then some "CQ"
  else if containsSub "ECP1:" line then some "ECP1"
  else if containsSub "ECP2:" line then some "ECP2"
  else if containsSub "ECP3:" line then some "ECP3"
  else if containsSub "VCP:" line then some "VCP"
  else if containsSub "ROVER:" line then some "ROVER"
  else if containsSub "Stand by:" line then some "STAND BY"
  else none

/-- The decorative prefixes skipped inside a section (crud.py line 384). -/
def noisePrefixes : List String :=
  ["🚐", "💻", "🚧", "🛺", "Meet at", "OCP"]

/-- Python line.startswith(noise tuple). -/
def startsWithNoise (line : String) : Bool :=
  noisePrefixes.any (fun p => strStartsWith p line)

/-- The identity-resolution loop over search_keys (crud.py lines
394-414): for each key, first an exact dict lookup, then — still
inside the same iteration — the fuzzy scan over all map entries
looking for one whose key contains both the uppercased name token and
the uppercased rank. -/
def fuzzyFind (m : List (String × Personnel)) (rank lastName : String) :
    Option Personnel :=
  (m.find? (fun kv =>
    containsSub (pyUpper lastName) kv.1 && containsSub (pyUpper rank) kv.1)).map
    (fun kv => kv.2)

/-- The three search_keys (crud.py lines 395-399). -/
def searchKeys (rank lastName : String) : List String :=
  [pyUpper (rank ++ " " ++ lastName), pyUpper lastName,
   pyUpper rank ++ " " ++ pyUpper lastName]

/-- The body of the for key in search_keys loop. -/
def resolveLoop (m : List (String × Personnel)) (rank lastName : String) :
    List String → Option Personnel
  | [] => none
  | k :: ks =>
    match dictGet m k with
    | some p => some p
    | none =>
      match fuzzyFind m rank lastName with
      | some p => some p
      | none => resolveLoop m rank lastName ks

/-- Identity resolution as the code performs it for one extracted
(rank, nameToken) pair. -/
def resolvePersonCode (m : List (String × Personnel)) (rank lastName : String) :
    Option Personnel :=
  resolveLoop m rank lastName (searchKeys rank lastName)

/-- Modelled from the wording of claim C3, not from the source: try
(a) an exact case-insensitive match of rank-space-token against each
full name, then (b) an exact case-insensitive match of the token
against each bare name, then (c) the first roster entry whose
uppercased full name contains both the uppercased token and the
uppercased rank. -/
def resolveSpecOrder (roster : List Personnel) (rank nameToken : String) :
    Option Personnel :=
  match roster.find? (fun p => pyUpper p.fullName == pyUpper (rank ++ " " ++ nameToken)) with
  | some p => some p
  | none =>
    match roster.find? (fun p => pyUpper p.name == pyUpper nameToken) with
    | some p => some p
    | none =>
      roster.find? (fun p =>
        containsSub (pyUpper nameToken) (pyUpper p.fullName) &&
        containsSub (pyUpper rank) (pyUpper p.fullName))

/-- The read-only context one import run carries: the personnel map,
the post-types dict, the resolved duty date and the clock. -/
structure ParseCtx where
  pmap : List (String × Personnel)
  ptypes : List (String × PostType)
  dutyDate : Date
  now : Int
deriving Repr

/-- The mutable state of the line loop: current_post_type,
assignments_created, and the store. -/
structure LoopState where
  cur : Option String
  created : Nat
  store : Store
deriving DecidableEq, Repr

/-- Processing of one extracted (rank, name) pair inside a section
(crud.py lines 391-470): resolve the person, the mapping, the post
type and the post; skip silently when any lookup fails or when the
exact (person, post, duty date) triple already exists; otherwise
append the assignment and update fairness tracking. -/
def processMatch (ctx : ParseCtx) (key : String) (st : LoopState)
    (rnm : String × String) : Option LoopState :=
  match resolvePersonCode ctx.pmap rnm.1 rnm.2 with
  | none => some st
  | some person =>
    match lookupMapping key with
    | none => some st
    | some tp =>
      match dictGet ctx.ptypes (pyUpper tp.1) with
      | none => some st
      | some pt =>
        match st.store.posts.find? (fun po =>
          po.postTypeId == some pt.id && po.name == tp.2) with
        | none => some st
        | some post =>
          match st.store.assignments.find? (fun a =>
            a.personId == person.id && a.postId == post.id &&
            a.dutyDate == ctx.dutyDate) with
          | some _ => some st
          | none =>
            let a : Assignment :=
              { personId := person.id
                postId := post.id
                dutyDate := ctx.dutyDate
                startTime := "06:00"
                endTime := "18:00"
                status := "assigned"
                notes := "Imported from group chat" }
            let store2 := { st.store with assignments := st.store.assignments ++ [a] }
            match updateFairnessTracking store2 person.id post.id ctx.now with
            | none => none
            | some store3 =>
              some { st with store := store3, created := st.created + 1 }

/-- Fold processMatch over the pairs found in one line. -/
def processMatches (ctx : ParseCtx) (key : String) (st : LoopState) :
    List (String × String) → Option LoopState
  | [] => some st
  | m :: ms =>
    match processMatch ctx key st m with
    | none => none
    | some st2 => processMatches ctx key st2 ms

/-- Processing of one line of the chat text (crud.py lines 352-470):
strip it, skip it when empty, treat it as a section header when it
contains a marker, otherwise — with a section active and no noise
prefix — extract and process the rank-name pairs. -/
def processLine (ctx : ParseCtx) (st : LoopState) (rawLine : String) :
    Option LoopState :=
  let line := pyStrip rawLine
  if line == "" then some st
  else
    match headerOf line with
    | some h => some { st with cur := some h }
    | none =>
      match st.cur with
      | none => some st
      | some key =>
        if startsWithNoise line then some st
        else processMatches ctx key st (findMatches line)

/-- Fold processLine over all lines. -/
def runLines (ctx : ParseCtx) (st : LoopState) : List String → Option LoopState
  | [] => some st
  | l :: ls =>
    match processLine ctx st l with
    | none => none
    | some st2 => runLines ctx st2 ls

/-- parse_and_create_chat_assignments (crud.py lines 300-474).
today is the value of datetime.now().date(), the fallback when the
duty date string does not parse; now is the clock the fairness engine
stamps. -/
def parseAndCreateChatAssignments (s : Store) (chatText dutyDateStr : String)
    (today : Date) (now : Int) : Option (Nat × Store) :=
  let dutyDateObj := match parseIsoDate dutyDateStr with
    | some d => d
    | none => today
  match buildPersonnelMap (activePersonnelPage s) with
  | none => none
  | some pmap =>
    let ctx : ParseCtx :=
      { pmap := pmap
        ptypes := buildPostTypesDict s.postTypes
        dutyDate := dutyDateObj
        now := now }
    match runLines ctx { cur := none, created := 0, store := s } (pySplitLines (pyStrip chatText)) with
    | none => none
    | some st => some (st.created, st.store)

/-! ### Concrete stores used by the counterexamples and witnesses -/

/-- A store holding exactly the roster of the C1 scenario: SGT Lastre
and SPC Miller, with the SOG and CQ post types and posts (the seed
weights of app/main.py). -/
def c1Store : Store :=
  { personnel := [⟨1, "SGT", "Lastre", true⟩, ⟨2, "SPC", "Miller", true⟩]
    postTypes := [⟨1, "SOG", 5⟩, ⟨2, "CQ", 3⟩]
    posts := [⟨1, "SOG", some 1, true⟩, ⟨2, "CQ", some 2, true⟩]
    assignments := []
    fairness := [] }

/-- c1Store after a successful import of the two-person roster with
each name on the line after its marker. -/
def c1After : Store :=
  { c1Store with
    assignments :=
      [⟨1, 1, (2024, 1, 15), "06:00", "18:00", "assigned", "Imported from group chat"⟩,
       ⟨2, 2, (2024, 1, 15), "06:00", "18:00", "assigned", "Imported from group chat"⟩]
    fairness := [⟨1, 1, 5, some 0, 0⟩, ⟨2, 1, 3, some 0, 0⟩] }

/-- A store whose posts table does not contain post 99: the missing
Post branch of update_fairness_tracking. -/
def c2StoreMissingPost : Store :=
  { personnel := [⟨1, "SGT", "Lastre", true⟩]
    postTypes := [⟨1, "SOG", 5⟩]
    posts := []
    assignments := []
    fairness := [⟨1, 2, 7, some 0, 3⟩] }

/-- A store whose post 1 exists but has a NULL post_type_id, so
post.post_type resolves to None. -/
def c2StoreNullType : Store :=
  { personnel := [⟨1, "SGT", "Lastre", true⟩]
    postTypes := [⟨1, "SOG", 5⟩]
    posts := [⟨1, "Orphan", none, true⟩]
    assignments := []
    fairness := [] }

/-- A roster on which the resolution order matters: the pair
(SGT, Miller) bare-name-matches SPC Miller but fuzzy-matches
SGT Millerton first. -/
def c3Roster : List Personnel :=
  [⟨1, "SPC", "Miller", true⟩, ⟨2, "SGT", "Millerton", true⟩]

/-- A store with one assignment, for replaying the fairness
recalculation at two different instants. -/
def c4Store : Store :=
  { personnel := [⟨1, "SPC", "Miller", true⟩]
    postTypes := [⟨1, "CQ", 3⟩]
    posts := [⟨1, "CQ", some 1, true⟩]
    assignments := [⟨1, 1, (2024, 1, 15), "06:00", "18:00", "assigned", "x"⟩]
    fairness := [] }

/-- c4Store as the first recalculation run, clocked at instant 0,
leaves it. -/
def c4After1 : Store :=
  { c4Store with fairness := [⟨1, 1, 3, some 0, 0⟩] }

/-- c4Store as the second recalculation run, clocked one day later,
leaves it. -/
def c4After2 : Store :=
  { c4Store with fairness := [⟨1, 1, 3, some 86400, 0⟩] }

/-- A store with one never-assigned active person (id 1) and one
person (id 2) whose single assignment lies twenty days in the past. -/
def c6Store : Store :=
  { personnel := [⟨1, "SPC", "A", true⟩, ⟨2, "SGT", "B", true⟩]
    postTypes := []
    posts := []
    assignments := []
    fairness := [⟨2, 1, 1, some 0, 0⟩] }

/-- Twenty days after instant 0. -/
def c6Now : Int := 20 * 86400

/-- A store in which post type CQ has three assignments in total,
one of them to person 1: the 1-of-3 percentage case. -/
def c8Store : Store :=
  { personnel := [⟨1, "SPC", "X", true⟩, ⟨2, "SPC", "Y", true⟩]
    postTypes := [⟨1, "CQ", 3⟩]
    posts := [⟨1, "CQ", some 1, true⟩]
    assignments :=
      [⟨1, 1, (2024, 1, 1), "06:00", "18:00", "assigned", ""⟩,
       ⟨2, 1, (2024, 1, 2), "06:00", "18:00", "assigned", ""⟩,
       ⟨2, 1, (2024, 1, 3), "06:00", "18:00", "assigned", ""⟩]
    fairness := [] }

/-- A store whose only post type carries a negative difficulty weight,
as the schema layer permits. -/
def c9Store : Store :=
  { personnel := [⟨1, "SPC", "X", true⟩]
    postTypes := [⟨1, "ECP", -5⟩]
    posts := [⟨1, "ECP1", some 1, true⟩]
    assignments := []
    fairness := [] }

/-- A store with 101 active personnel in which only the 101st — beyond
the 100-row page the importer fetches — has a whitespace-only name. -/
def c10Store : Store :=
  { personnel := List.replicate 100 ⟨1, "SGT", "A", true⟩ ++ [⟨101, "SGT", "   ", true⟩]
    postTypes := []
    posts := []
    assignments := []
    fairness := [] }

/-- A store whose only active person has a whitespace-only name. -/
def c10BadStore : Store :=
  { personnel := [⟨1, "SGT", " ", true⟩]
    postTypes := []
    posts := []
    assignments := []
    fairness := [] }

/-- The FairnessTracking record of a person as the engine reads it:
the first stored record with that person_id, or the lazily created
fresh record when none exists. -/
def fairnessFor (s : Store) (personId : Nat) : FairnessRec :=
  (s.fairness.find? (fun r => r.personId == personId)).getD (freshFairness personId)

/-- Equality of the tables the import loop only reads: personnel,
post types and posts. -/
def staticEq (a b : Store) : Prop :=
  a.personnel = b.personnel ∧ a.postTypes = b.postTypes ∧ a.posts = b.posts

/-- c1Store after one fairness update for person 1 on post 1. -/
def c9After : Store :=
  { c1Store with fairness := [⟨1, 1, 5, some 0, 0⟩] }

/-- The breakdown entry of person 1 in the c8Store distribution:
1 of 3 CQ assignments, reported as 33.3 percent. -/
def c8Pa : PostAssignmentStat :=
  ⟨"CQ", 1, 333 / 10, 100⟩

/-- The person_stats entry of person 1 in the c8Store distribution. -/
def c8Pstat : PersonDistStat :=
  ⟨1, "SPC X", "SPC", [c8Pa], 1⟩

set_option allowUnsafeReducibility true
attribute [semireducible] Rat.sub Rat.add Rat.mul Rat.inv Rat.neg

/-! ### Claim C1 -/

/-- C1, counterexample: on the input text of the claim, with the
claimed roster, the importer produces zero candidate tuples and leaves
the store untouched — not two.  A line containing a section marker is
consumed whole by the elif chain, so the rank-name pairs standing on
the marker line itself contribute no personnel. -/
theorem c1_counterexample :
    parseAndCreateChatAssignments c1Store "SOG: SGT Lastre\n\nCQ: SPC Miller"
      "2024-01-15" (2024, 1, 15) 0 = some (0, c1Store) := by
  decide

/-- C1, amended: with each name moved to the line after its marker,
the same roster yields exactly two candidate tuples, one on post SOG
(post 1) and one on post CQ (post 2), as the resulting store shows. -/
theorem c1_marker_lines_consumed :
    parseAndCreateChatAssignments c1Store "SOG:\nSGT Lastre\n\nCQ:\nSPC Miller"
      "2024-01-15" (2024, 1, 15) 0 = some (2, c1After) := by
  decide

/-! ### Claim C2 -/

/-- C2: the failure semantics of update_fairness_tracking are fail-soft
only for a missing Post (weight 1, streak untouched, no exception);
when the Post exists but its PostType cannot be resolved, the
standby-streak check dereferences post.post_type.name and raises
AttributeError (modelled as none), contradicting the claim that the
operation never raises for any combination. -/
theorem c2_failsoft_break :
    (updateFairnessTracking c2StoreMissingPost 1 99 5 =
      some { c2StoreMissingPost with fairness := [⟨1, 3, 8, some 5, 3⟩] }) ∧
    updateFairnessTracking c2StoreNullType 1 1 5 = none := by
  decide

/-! ### Claim C3 -/

/-- C3, counterexample: for the extracted pair (SGT, Miller) on the
c3Roster map, the code resolves to person 2 (SGT Millerton, found by
the fuzzy rule run right after the first exact key fails), while the
claimed rule order resolves to person 1 (SPC Miller, found by the
bare-name rule that the claim places before the fuzzy rule). -/
theorem c3_counterexample :
    ((buildPersonnelMap c3Roster).bind
      (fun m => resolvePersonCode m "SGT" "Miller")).map Personnel.id = some 2 ∧
    (resolveSpecOrder c3Roster "SGT" "Miller").map Personnel.id = some 1 := by
  decide

/-! ### Claim C4 -/

/-- C4, counterexample: recalculating fairness twice in a row, the
second run one day after the first, yields different FairnessTracking
states — last_assignment_date is stamped with each run's clock. -/
theorem c4_counterexample :
    recalculateFairness c4Store 0 = some c4After1 ∧
    recalculateFairness c4After1 86400 = some c4After2 ∧
    c4After1 ≠ c4After2 := by
  decide

/-! ### Claim C6 -/

/-- C6, counterexample: person 2 has one assignment, made twenty days
ago with difficulty 1, and scores 1 - 20 * 0.1 = -1; person 1 has no
assignments and scores 0.  The ranking places person 2 strictly before
person 1, and the assigned person's score is strictly below the
zero-assignment person's. -/
theorem c6_counterexample :
    (getFairnessStats c6Store c6Now).map
      (fun e => (e.personId, e.totalAssignments, e.fairnessScore)) =
      [(2, 1, -1), (1, 0, 0)] ∧ ((-1 : ℚ) < 0) := by
  decide

/-! ### Claim C8 -/

/-- C8, counterexample: with three CQ assignments in total of which
person 1 has one, the code reports percentage_of_total 33.3 (the
quotient rounded to one decimal), which differs from the exact
1/3 * 100 the claim states. -/
theorem c8_counterexample :
    (getPostDistributionStats c8Store).personnelStats.map
      (fun p => (p.personId, p.totalAssignments,
        p.postAssignments.map (fun a => (a.postType, a.count, a.percentageOfTotal)))) =
      [(2, 2, [("CQ", 2, 667 / 10)]), (1, 1, [("CQ", 1, 333 / 10)])] ∧
    ¬((333 / 10 : ℚ) = (1 / 3) * 100) := by
  decide

/-! ### Claim C9 -/

/-- C9, counterexample: with a post type whose stored difficulty
weight is -5 (the schema accepts any int), a successful call leaves
total_difficulty_points at -5, violating the claimed invariant
0 <= total_difficulty_points. -/
theorem c9_counterexample :
    updateFairnessTracking c9Store 1 1 0 =
      some { c9Store with fairness := [⟨1, 1, -5, some 0, 0⟩] } ∧
    ¬(0 ≤ (-5 : Int)) := by
  decide

/-! ### Claim C10 -/

/-- C10, counterexample: the store holds an active personnel record
whose name is only whitespace, yet the importer returns normally —
the record is the 101st active row and get_personnel pages with
limit 100, so the map-building loop never reaches it. -/
theorem c10_counterexample :
    (∃ p ∈ c10Store.personnel, p.isActive = true ∧ splitWs p.name = []) ∧
    parseAndCreateChatAssignments c10Store "" "2024-01-15" (2024, 1, 15) 0 =
      some (0, c10Store) := by
  decide

/-- The map-building loop dies with IndexError as soon as it reaches a
person whose name has no whitespace token, whatever has been
accumulated so far. -/
theorem buildPersonnelMapAux_err :
    ∀ (ps : List Personnel) (acc : List (String × Personnel)),
      (∃ p ∈ ps, splitWs p.name = []) → buildPersonnelMapAux acc ps = none := by
  intro ps
  induction ps with
  | nil => intro acc h; simp at h
  | cons p rest ih =>
    intro acc h
    simp only [buildPersonnelMapAux]
    rcases h with ⟨q, hq, hname⟩
    rcases List.mem_cons.mp hq with hq | hq
    · subst hq
      rw [hname]
      rfl
    · cases hlast : (splitWs p.name).getLast? with
      | none => rfl
      | some ln => exact ih _ ⟨q, hq, hname⟩

/-- C10, amended: the importer raises the uncaught IndexError whenever
any of the first hundred active personnel rows — the page
get_personnel(db) fetches with its defaults skip=0, limit=100 — has a
name consisting only of whitespace; it is total only when every
fetched name has a non-whitespace token. -/
theorem c10_whitespace_name_raises (s : Store) (text dstr : String) (today : Date)
    (now : Int) (h : ∃ p ∈ activePersonnelPage s, splitWs p.name = []) :
    parseAndCreateChatAssignments s text dstr today now = none := by
  simp only [parseAndCreateChatAssignments, buildPersonnelMap]
  rw [buildPersonnelMapAux_err (activePersonnelPage s) [] h]

/-- C10, witness: a store whose only active person has the name " "
makes the importer raise. -/
theorem c10_witness :
    parseAndCreateChatAssignments c10BadStore "" "2024-01-15" (2024, 1, 15) 0 = none :=
  c10_whitespace_name_raises c10BadStore "" "2024-01-15" (2024, 1, 15) 0 (by decide)

/-- C3, amended: the resolution loop is equivalent to trying, in
order, the exact uppercased rank-space-token key, then the fuzzy
containment scan, then the exact uppercased bare-token key, then
(redundantly, the same string as the first) the uppercased
rank-space-uppercased-token key.  The fuzzy rule is consulted as soon
as the first exact key misses, before the bare-name rule. -/
theorem c3_resolution_order (m : List (String × Personnel)) (rank lastName : String) :
    resolvePersonCode m rank lastName =
      match dictGet m (pyUpper (rank ++ " " ++ lastName)) with
      | some p => some p
      | none =>
        match fuzzyFind m rank lastName with
        | some p => some p
        | none =>
          match dictGet m (pyUpper lastName) with
          | some p => some p
          | none => dictGet m (pyUpper rank ++ " " ++ pyUpper lastName) := by
  simp only [resolvePersonCode, searchKeys, resolveLoop]
  cases h1 : dictGet m (pyUpper (rank ++ " " ++ lastName)) with
  | some p => rfl
  | none =>
    cases h2 : fuzzyFind m rank lastName with
    | some p => rfl
    | none =>
      cases h3 : dictGet m (pyUpper lastName) with
      | some p => rfl
      | none =>
        cases h4 : dictGet m (pyUpper rank ++ " " ++ pyUpper lastName) with
        | some p => rfl
        | none => rfl

/-- What one successful record update guarantees: the person id is
kept, total_assignments grows by exactly one, total_difficulty_points
grows by a weight that is nonnegative whenever every stored post-type
weight is, and the standby streak is reset, incremented or kept. -/
theorem updateFairnessRecord_spec (s : Store) (postId : Nat) (now : Int)
    (r r2 : FairnessRec) (h : updateFairnessRecord s postId now r = some r2) :
    r2.personId = r.personId ∧
    r2.totalAssignments = r.totalAssignments + 1 ∧
    (∃ w : Int, r2.totalDifficultyPoints = r.totalDifficultyPoints + w ∧
      ((∀ pt ∈ s.postTypes, 0 ≤ pt.difficultyWeight) → 0 ≤ w)) ∧
    (r2.consecutiveStandby = 0 ∨ r2.consecutiveStandby = r.consecutiveStandby + 1 ∨
      r2.consecutiveStandby = r.consecutiveStandby) := by
  simp only [updateFairnessRecord] at h
  cases hpost : s.posts.find? (fun p => p.id == postId) with
  | none =>
    simp only [hpost] at h
    cases h
    refine ⟨rfl, rfl, ⟨1, rfl, fun _ => by norm_num⟩, ?_⟩
    right; right; rfl
  | some p =>
    simp only [hpost] at h
    cases hpt : postTypeOf s p with
    | none => simp [hpt] at h
    | some pt =>
      simp only [hpt] at h
      have hmem : pt ∈ s.postTypes := by
        have h2 := hpt
        simp only [postTypeOf] at h2
        cases hfk : p.postTypeId with
        | none => rw [hfk] at h2; cases h2
        | some i =>
          rw [hfk] at h2
          exact List.mem_of_find?_eq_some h2
      by_cases hname : (pt.name != "Stand by") = true
      · rw [if_pos hname] at h
        cases h
        refine ⟨rfl, rfl, ?_, Or.inl rfl⟩
        refine ⟨if pt.difficultyWeight == 0 then 1 else pt.difficultyWeight, rfl, ?_⟩
        intro hw
        by_cases h0 : (pt.difficultyWeight == 0) = true
        · simp [h0]
        · simp only [h0, if_false, Bool.false_eq_true]
          exact hw pt hmem
      · rw [if_neg hname] at h
        cases h
        refine ⟨rfl, rfl, ?_, Or.inr (Or.inl rfl)⟩
        refine ⟨if pt.difficultyWeight == 0 then 1 else pt.difficultyWeight, rfl, ?_⟩
        intro hw
        by_cases h0 : (pt.difficultyWeight == 0) = true
        · simp [h0]
        · simp only [h0, if_false, Bool.false_eq_true]
          exact hw pt hmem

/-- The list update applies the record update exactly to the record
the engine reads for that person, and the updated list reads back the
updated record, provided the update keeps the person id. -/
theorem updateFairnessList_find (u : FairnessRec → Option FairnessRec) (pid : Nat)
    (hu : ∀ r r2, u r = some r2 → r2.personId = r.personId) :
    ∀ (l l2 : List FairnessRec), updateFairnessList u pid l = some l2 →
      ∃ r2, u ((l.find? (fun r => r.personId == pid)).getD (freshFairness pid)) = some r2 ∧
        l2.find? (fun r => r.personId == pid) = some r2 := by
  intro l
  induction l with
  | nil =>
    intro l2 h
    simp only [updateFairnessList] at h
    cases hfr : u (freshFairness pid) with
    | none => rw [hfr] at h; cases h
    | some r2 =>
      rw [hfr] at h
      cases h
      refine ⟨r2, by simpa using hfr, ?_⟩
      have : r2.personId = pid := hu _ _ hfr
      simp [List.find?, this]
  | cons r rs ih =>
    intro l2 h
    simp only [updateFairnessList] at h
    by_cases hr : (r.personId == pid) = true
    · rw [if_pos hr] at h
      cases hur : u r with
      | none => rw [hur] at h; cases h
      | some r2 =>
        rw [hur] at h
        cases h
        have hid : r2.personId = pid := by
          rw [hu _ _ hur]
          simpa using hr
        refine ⟨r2, ?_, ?_⟩
        · simp only [List.find?, hr]
          simpa using hur
        · have hid2 : (r2.personId == pid) = true := by simp [hid]
          simp only [List.find?, hid2]
    · have hrf : (r.personId == pid) = false := by
        simpa using hr
      rw [if_neg hr] at h
      cases hrec : updateFairnessList u pid rs with
      | none => rw [hrec] at h; cases h
      | some rs2 =>
        rw [hrec] at h
        cases h
        obtain ⟨r2, hur, hfind⟩ := ih rs2 hrec
        refine ⟨r2, ?_, ?_⟩
        · simpa only [List.find?, hrf] using hur
        · simp only [List.find?, hrf]
          exact hfind

/-- C9, amended: every successful update_fairness_tracking call
increments the person's total_assignments by exactly one and either
resets, increments or keeps consecutive_standby, so
consecutive_standby ≤ total_assignments is preserved; and — provided
every stored post-type difficulty weight is nonnegative, as the spec
data model requires but the schema does not enforce —
0 ≤ total_difficulty_points is preserved as well. -/
theorem c9_invariant_preserved (s : Store) (personId postId : Nat) (now : Int)
    (s2 : Store) (hupd : updateFairnessTracking s personId postId now = some s2)
    (hw : ∀ pt ∈ s.postTypes, 0 ≤ pt.difficultyWeight) :
    (fairnessFor s2 personId).totalAssignments =
      (fairnessFor s personId).totalAssignments + 1 ∧
    ((fairnessFor s2 personId).consecutiveStandby = 0 ∨
     (fairnessFor s2 personId).consecutiveStandby =
       (fairnessFor s personId).consecutiveStandby + 1 ∨
     (fairnessFor s2 personId).consecutiveStandby =
       (fairnessFor s personId).consecutiveStandby) ∧
    ((fairnessFor s personId).consecutiveStandby ≤
        (fairnessFor s personId).totalAssignments →
      (fairnessFor s2 personId).consecutiveStandby ≤
        (fairnessFor s2 personId).totalAssignments) ∧
    (0 ≤ (fairnessFor s personId).totalDifficultyPoints →
      0 ≤ (fairnessFor s2 personId).totalDifficultyPoints) := by
  simp only [updateFairnessTracking] at hupd
  cases hlist : updateFairnessList (updateFairnessRecord s postId now) personId s.fairness with
  | none => rw [hlist] at hupd; cases hupd
  | some fl =>
    rw [hlist] at hupd
    cases hupd
    obtain ⟨r2, hur, hfind⟩ :=
      updateFairnessList_find (updateFairnessRecord s postId now) personId
        (fun r r2 h => (updateFairnessRecord_spec s postId now r r2 h).1)
        s.fairness fl hlist
    obtain ⟨hpid, hta, ⟨w, hwq, hwnn⟩, hcs⟩ := updateFairnessRecord_spec _ _ _ _ _ hur
    have hread : fairnessFor { s with fairness := fl } personId = r2 := by
      simp only [fairnessFor]
      rw [hfind]
      rfl
    rw [hread]
    simp only [fairnessFor]
    refine ⟨hta, hcs, ?_, ?_⟩
    · intro hle
      rcases hcs with hc | hc | hc
      · omega
      · omega
      · omega
    · intro hnn
      rw [hwq]
      have := hwnn hw
      omega

/-- C9, witness: a fresh person assigned the SOG post of c1Store
(weight 5, nonnegative weights throughout). -/
theorem c9_witness :
    (fairnessFor c9After 1).totalAssignments = (fairnessFor c1Store 1).totalAssignments + 1 ∧
    ((fairnessFor c9After 1).consecutiveStandby = 0 ∨
     (fairnessFor c9After 1).consecutiveStandby = (fairnessFor c1Store 1).consecutiveStandby + 1 ∨
     (fairnessFor c9After 1).consecutiveStandby = (fairnessFor c1Store 1).consecutiveStandby) ∧
    ((fairnessFor c1Store 1).consecutiveStandby ≤ (fairnessFor c1Store 1).totalAssignments →
      (fairnessFor c9After 1).consecutiveStandby ≤ (fairnessFor c9After 1).totalAssignments) ∧
    (0 ≤ (fairnessFor c1Store 1).totalDifficultyPoints →
      0 ≤ (fairnessFor c9After 1).totalDifficultyPoints) :=
  c9_invariant_preserved c1Store 1 1 0 c9After (by decide) (by decide)

/-- C6, amended: the zero-assignment row (score 0.0) scores at or
below a tracked row exactly when the tracked person's waiting
deduction 0.1 times days_since does not exceed their
total_difficulty_points; stated here with that bound as hypothesis. -/
theorem c6_zero_score_ranks_first (now : Int) (p q : Personnel) (t : FairnessRec)
    (h : (match t.lastAssignmentDate with
          | some d => (daysSince now d : ℚ) * (1 / 10)
          | none => 0) ≤ (t.totalDifficultyPoints : ℚ)) :
    (mkFairnessStatsRow now p none).fairnessScore ≤
      (mkFairnessStatsRow now q (some t)).fairnessScore := by
  simp only [mkFairnessStatsRow]
  cases hlast : t.lastAssignmentDate with
  | none =>
    rw [hlast] at h
    simpa using h
  | some d =>
    rw [hlast] at h
    simp only
    linarith

/-- C6, witness: a person tracked with one point, assigned today
(zero days since), scores at least the zero-assignment person. -/
theorem c6_witness :
    (mkFairnessStatsRow 0 ⟨1, "SPC", "A", true⟩ none).fairnessScore ≤
      (mkFairnessStatsRow 0 ⟨2, "SGT", "B", true⟩ (some ⟨2, 1, 1, some 0, 0⟩)).fairnessScore :=
  c6_zero_score_ranks_first 0 ⟨1, "SPC", "A", true⟩ ⟨2, "SGT", "B", true⟩
    ⟨2, 1, 1, some 0, 0⟩ (by decide)

/-- A fairness statistics row always carries the id of the person it
was built for. -/
theorem mkFairnessStatsRow_personId (now : Int) (p : Personnel)
    (otr : Option FairnessRec) : (mkFairnessStatsRow now p otr).personId = p.id := by
  cases otr <;> rfl

/-- C7: every row of get_fairness_stats carries either the zero score
of a person with no tracking record, or the spec formula
total_difficulty_points minus 0.1 times days_since applied to a stored
tracking record of that person; the output is sorted ascending by
score and covers every active person. -/
theorem c7_fairness_scores (s : Store) (now : Int) (e : FairnessStatsRow)
    (he : e ∈ getFairnessStats s now) :
    List.Sorted scoreLE (getFairnessStats s now) ∧
    ((e.fairnessScore = 0 ∧ e.totalAssignments = 0 ∧
      ∀ t ∈ s.fairness, t.personId ≠ e.personId) ∨
     (∃ t ∈ s.fairness, t.personId = e.personId ∧
        e.fairnessScore = specFairnessScore now t)) ∧
    (∀ p ∈ s.personnel, p.isActive = true →
      ∃ e2 ∈ getFairnessStats s now, e2.personId = p.id) := by
  refine ⟨?_, ?_, ?_⟩
  · simp only [getFairnessStats]
    exact List.sorted_insertionSort scoreLE _
  · have he2 : e ∈ (outerJoinRows s).map (fun pr => mkFairnessStatsRow now pr.1 pr.2) := by
      simpa only [getFairnessStats, List.mem_insertionSort] using he
    obtain ⟨pr, hpr, hmk⟩ := List.mem_map.mp he2
    simp only [outerJoinRows] at hpr
    obtain ⟨p, hp, hin⟩ := List.mem_flatMap.mp hpr
    by_cases hemp : (s.fairness.filter (fun t => t.personId == p.id)).isEmpty = true
    · rw [if_pos hemp] at hin
      have hpr2 : pr = (p, none) := by simpa using hin
      subst hpr2
      subst hmk
      left
      refine ⟨rfl, rfl, ?_⟩
      intro t ht
      have hnil : s.fairness.filter (fun t => t.personId == p.id) = [] :=
        List.isEmpty_iff.mp hemp
      have := List.filter_eq_nil_iff.mp hnil t ht
      simp only [mkFairnessStatsRow_personId]
      simpa using this
    · rw [if_neg hemp] at hin
      obtain ⟨t, ht, hpr2⟩ := List.mem_map.mp hin
      subst hpr2
      subst hmk
      right
      have htmem := List.mem_filter.mp ht
      refine ⟨t, htmem.1, ?_, ?_⟩
      · have : t.personId = p.id := by simpa using htmem.2
        rw [this, mkFairnessStatsRow_personId]
      · simp only [mkFairnessStatsRow, specFairnessScore]
        cases t.lastAssignmentDate with
        | none => rfl
        | some d => ring
  · intro p hp hact
    have hpf : p ∈ s.personnel.filter (fun q => q.isActive) :=
      List.mem_filter.mpr ⟨hp, hact⟩
    by_cases hemp : (s.fairness.filter (fun t => t.personId == p.id)).isEmpty = true
    · refine ⟨mkFairnessStatsRow now p none, ?_, mkFairnessStatsRow_personId now p none⟩
      simp only [getFairnessStats, List.mem_insertionSort]
      refine List.mem_map.mpr ⟨(p, none), ?_, rfl⟩
      simp only [outerJoinRows]
      refine List.mem_flatMap.mpr ⟨p, hpf, ?_⟩
      rw [if_pos hemp]
      simp
    · have hne : s.fairness.filter (fun t => t.personId == p.id) ≠ [] := by
        intro hnil
        rw [hnil] at hemp
        simp at hemp
      obtain ⟨t, ht⟩ := List.exists_mem_of_ne_nil _ hne
      refine ⟨mkFairnessStatsRow now p (some t), ?_, mkFairnessStatsRow_personId now p (some t)⟩
      simp only [getFairnessStats, List.mem_insertionSort]
      refine List.mem_map.mpr ⟨(p, some t), ?_, rfl⟩
      simp only [outerJoinRows]
      refine List.mem_flatMap.mpr ⟨p, hpf, ?_⟩
      rw [if_neg hemp]
      exact List.mem_map.mpr ⟨t, ht, rfl⟩

/-- After a bump the bumped key is present with a positive count. -/
theorem dictGet_bumpCount_self :
    ∀ (m : List (String × Nat)) (k : String),
      ∃ t, dictGet (bumpCount m k) k = some t ∧ 1 ≤ t := by
  intro m k
  induction m with
  | nil =>
    refine ⟨1, ?_, le_refl 1⟩
    simp [bumpCount, dictGet, List.find?]
  | cons kv rest ih =>
    by_cases h : (kv.1 == k) = true
    · refine ⟨kv.2 + 1, ?_, Nat.le_add_left 1 kv.2⟩
      simp only [bumpCount, h, if_true, dictGet, List.find?]
      rfl
    · obtain ⟨t, hget, ht⟩ := ih
      refine ⟨t, ?_, ht⟩
      have hf : (kv.1 == k) = false := by simpa using h
      simp only [bumpCount, hf, Bool.false_eq_true, if_false, dictGet, List.find?, hf]
      simpa only [dictGet] using hget

/-- A bump never removes a key and never lowers a count. -/
theorem dictGet_bumpCount_other :
    ∀ (m : List (String × Nat)) (k k2 : String) (t : Nat),
      dictGet m k2 = some t →
      ∃ t2, dictGet (bumpCount m k) k2 = some t2 ∧ t ≤ t2 := by
  intro m k
  induction m with
  | nil =>
    intro k2 t h
    simp [dictGet, List.find?] at h
  | cons kv rest ih =>
    intro k2 t h
    by_cases hhead : (kv.1 == k2) = true
    · have hval : kv.2 = t := by
        simp only [dictGet, List.find?, hhead] at h
        simpa using h
      by_cases hk : (kv.1 == k) = true
      · refine ⟨kv.2 + 1, ?_, by omega⟩
        simp only [bumpCount, hk, if_true, dictGet, List.find?, hhead]
        rfl
      · have hkf : (kv.1 == k) = false := by simpa using hk
        refine ⟨t, ?_, le_refl t⟩
        simp only [bumpCount, hkf, Bool.false_eq_true, if_false, dictGet, List.find?, hhead]
        simpa using hval
    · have hheadf : (kv.1 == k2) = false := by simpa using hhead
      have hrest : dictGet rest k2 = some t := by
        simpa only [dictGet, List.find?, hheadf] using h
      by_cases hk : (kv.1 == k) = true
      · refine ⟨t, ?_, le_refl t⟩
        simp only [bumpCount, hk, if_true, dictGet, List.find?, hheadf]
        simpa only [dictGet] using hrest
      · have hkf : (kv.1 == k) = false := by simpa using hk
        obtain ⟨t2, hget2, hle⟩ := ih k2 t hrest
        refine ⟨t2, ?_, hle⟩
        simp only [bumpCount, hkf, Bool.false_eq_true, if_false, dictGet, List.find?, hheadf]
        simpa only [dictGet] using hget2

/-- Every entry of a bumped counter dict is the bumped key or an entry
that was already there. -/
theorem bumpCount_mem :
    ∀ (m : List (String × Nat)) (k : String), ∀ c ∈ bumpCount m k,
      c.1 = k ∨ c ∈ m := by
  intro m k
  induction m with
  | nil =>
    intro c hc
    simp only [bumpCount] at hc
    left
    have : c = (k, 1) := by simpa using hc
    rw [this]
  | cons kv rest ih =>
    intro c hc
    by_cases h : (kv.1 == k) = true
    · simp only [bumpCount, h, if_true] at hc
      rcases List.mem_cons.mp hc with hc | hc
      · left
        rw [hc]
        simpa using h
      · right
        exact List.mem_cons_of_mem kv hc
    · have hf : (kv.1 == k) = false := by simpa using h
      simp only [bumpCount, hf, Bool.false_eq_true, if_false] at hc
      rcases List.mem_cons.mp hc with hc | hc
      · right
        rw [hc]
        exact List.mem_cons_self kv rest
      · rcases ih c hc with hl | hr
        · left; exact hl
        · right; exact List.mem_cons_of_mem kv hr

/-- Every per-type count held by any person after an upsert is either
for the post type just counted or was already held by some person. -/
theorem upsertPersonAgg_counts :
    ∀ (ps : List (String × PersonAgg)) (key : String) (person : Personnel)
      (pt : String), ∀ kv ∈ upsertPersonAgg ps key person pt,
      ∀ c ∈ kv.2.postTypes, c.1 = pt ∨ ∃ kv0 ∈ ps, c ∈ kv0.2.postTypes := by
  intro ps key person pt
  induction ps with
  | nil =>
    intro kv hkv c hc
    simp only [upsertPersonAgg] at hkv
    have hkveq := List.mem_singleton.mp hkv
    subst hkveq
    rcases bumpCount_mem [] pt c hc with hl | hr
    · left; exact hl
    · simp at hr
  | cons kv1 rest ih =>
    intro kv hkv c hc
    by_cases h : (kv1.1 == key) = true
    · simp only [upsertPersonAgg, h, if_true] at hkv
      rcases List.mem_cons.mp hkv with hkv | hkv
      · subst hkv
        rcases bumpCount_mem kv1.2.postTypes pt c hc with hl | hr
        · left; exact hl
        · right; exact ⟨kv1, List.mem_cons_self kv1 rest, hr⟩
      · right; exact ⟨kv, List.mem_cons_of_mem kv1 hkv, hc⟩
    · have hf : (kv1.1 == key) = false := by simpa using h
      simp only [upsertPersonAgg, hf, Bool.false_eq_true, if_false] at hkv
      rcases List.mem_cons.mp hkv with hkv | hkv
      · subst hkv
        right; exact ⟨kv, List.mem_cons_self kv rest, hc⟩
      · rcases ih kv hkv c hc with hl | ⟨kv0, hkv0, hc0⟩
        · left; exact hl
        · right; exact ⟨kv0, List.mem_cons_of_mem kv1 hkv0, hc0⟩

/-- Invariant of the distribution aggregation loop: every per-person
per-type count has its type present in the running totals dict with a
positive total. -/
theorem aggregateRows_inv (rows : List (Personnel × PostType)) :
    ∀ (st : List (String × PersonAgg) × List (String × Nat)),
      (∀ kv ∈ st.1, ∀ c ∈ kv.2.postTypes, ∃ t, dictGet st.2 c.1 = some t ∧ 1 ≤ t) →
      ∀ kv ∈ (rows.foldl (fun acc row =>
          (upsertPersonAgg acc.1 (toString row.1.id ++ "_" ++ row.1.fullName) row.1 row.2.name,
           bumpCount acc.2 row.2.name)) st).1,
        ∀ c ∈ kv.2.postTypes,
          ∃ t, dictGet (rows.foldl (fun acc row =>
            (upsertPersonAgg acc.1 (toString row.1.id ++ "_" ++ row.1.fullName) row.1 row.2.name,
             bumpCount acc.2 row.2.name)) st).2 c.1 = some t ∧ 1 ≤ t := by
  induction rows with
  | nil =>
    intro st h
    simpa using h
  | cons row rest ih =>
    intro st h
    simp only [List.foldl_cons]
    apply ih
    intro kv hkv c hc
    rcases upsertPersonAgg_counts st.1 _ row.1 row.2.name kv hkv c hc with
      hceq | ⟨kv0, hkv0, hc0⟩
    · rw [hceq]
      exact dictGet_bumpCount_self st.2 row.2.name
    · obtain ⟨t, hget, ht⟩ := h kv0 hkv0 c hc0
      obtain ⟨t2, hget2, hle⟩ := dictGet_bumpCount_other st.2 row.2.name c.1 t hget
      exact ⟨t2, hget2, le_trans ht hle⟩

/-- C8, amended: every reported percentage_of_total is the person's
count divided by that post-type's grand total, times 100, rounded to
one decimal place; personnel are sorted by total assignments
descending and each breakdown by count descending. -/
theorem c8_distribution_rounded (s : Store) (pstat : PersonDistStat)
    (pa : PostAssignmentStat)
    (hp : pstat ∈ (getPostDistributionStats s).personnelStats)
    (hpa : pa ∈ pstat.postAssignments) :
    (∃ tot, dictGet (getPostDistributionStats s).postTypeTotals pa.postType = some tot ∧
      0 < tot ∧ pa.percentageOfTotal = round1 (((pa.count : ℚ) / (tot : ℚ)) * 100)) ∧
    List.Sorted totalGE (getPostDistributionStats s).personnelStats ∧
    List.Sorted countGE pstat.postAssignments := by
  simp only [getPostDistributionStats] at hp ⊢
  have hp2 : pstat ∈ (aggregateRows (joinedAssignments s)).1.map
      (fun kv => mkPersonDistStat (aggregateRows (joinedAssignments s)).2 kv.2) := by
    simpa only [List.mem_insertionSort] using hp
  obtain ⟨kv, hkv, hmkeq⟩ := List.mem_map.mp hp2
  refine ⟨?_, List.sorted_insertionSort totalGE _, ?_⟩
  · have hpa2 : pa ∈ pstat.postAssignments := hpa
    rw [← hmkeq] at hpa2
    simp only [mkPersonDistStat, List.mem_insertionSort] at hpa2
    obtain ⟨c, hc, hpaeq⟩ := List.mem_map.mp hpa2
    have hinv := aggregateRows_inv (joinedAssignments s) ([], [])
      (by intro kv hkv; simp at hkv) kv
      (by simpa only [aggregateRows] using hkv) c hc
    obtain ⟨tot, hget, htot⟩ := hinv
    have hget2 : dictGet (aggregateRows (joinedAssignments s)).2 c.1 = some tot := by
      simpa only [aggregateRows] using hget
    refine ⟨tot, ?_, htot, ?_⟩
    · have : pa.postType = c.1 := by rw [← hpaeq]
      rw [this]
      exact hget2
    · rw [← hpaeq]
      simp only [hget2, Option.getD_some, htot, if_pos (Nat.lt_of_lt_of_le Nat.zero_lt_one htot)]
  · rw [← hmkeq]
    simp only [mkPersonDistStat]
    exact List.sorted_insertionSort countGE _

/-- C8, witness: the 1-of-3 entry of person 1 in the c8Store
distribution. -/
theorem c8_witness :
    (∃ tot, dictGet (getPostDistributionStats c8Store).postTypeTotals c8Pa.postType =
        some tot ∧ 0 < tot ∧
      c8Pa.percentageOfTotal = round1 (((c8Pa.count : ℚ) / (tot : ℚ)) * 100)) ∧
    List.Sorted totalGE (getPostDistributionStats c8Store).personnelStats ∧
    List.Sorted countGE c8Pstat.postAssignments :=
  c8_distribution_rounded c8Store c8Pstat c8Pa (by decide) (by decide)

/-- A fairness update touches only the fairness table. -/
theorem updateFairnessTracking_static (s s2 : Store) (pid postId : Nat) (now : Int)
    (h : updateFairnessTracking s pid postId now = some s2) :
    s2.personnel = s.personnel ∧ s2.postTypes = s.postTypes ∧ s2.posts = s.posts ∧
    s2.assignments = s.assignments := by
  simp only [updateFairnessTracking] at h
  cases hl : updateFairnessList (updateFairnessRecord s postId now) pid s.fairness with
  | none => rw [hl] at h; cases h
  | some fl =>
    rw [hl] at h
    cases h
    exact ⟨rfl, rfl, rfl, rfl⟩

/-- A replay of fairness updates touches only the fairness table. -/
theorem replayAssignments_static :
    ∀ (l : List Assignment) (st s2 : Store) (now : Int),
      replayAssignments st now l = some s2 →
      s2.personnel = st.personnel ∧ s2.postTypes = st.postTypes ∧
      s2.posts = st.posts ∧ s2.assignments = st.assignments := by
  intro l
  induction l with
  | nil =>
    intro st s2 now h
    simp only [replayAssignments] at h
    cases h
    exact ⟨rfl, rfl, rfl, rfl⟩
  | cons a rest ih =>
    intro st s2 now h
    simp only [replayAssignments] at h
    cases hu : updateFairnessTracking st a.personId a.postId now with
    | none => rw [hu] at h; cases h
    | some st2 =>
      rw [hu] at h
      obtain ⟨h1, h2, h3, h4⟩ := ih st2 s2 now h
      obtain ⟨g1, g2, g3, g4⟩ := updateFairnessTracking_static st st2 a.personId a.postId now hu
      exact ⟨h1.trans g1, h2.trans g2, h3.trans g3, h4.trans g4⟩

/-- Two record updates made at different instants, over stores whose
posts and post types agree and over records that agree once dates are
erased, produce results that agree once dates are erased. -/
theorem updateFairnessRecord_erase (s1 s2 : Store) (postId : Nat) (t1 t2 : Int)
    (r1 r2 : FairnessRec)
    (hposts : s1.posts = s2.posts) (hpts : s1.postTypes = s2.postTypes)
    (hr : eraseDate r1 = eraseDate r2) :
    (updateFairnessRecord s1 postId t1 r1).map eraseDate =
      (updateFairnessRecord s2 postId t2 r2).map eraseDate := by
  have hpid : r1.personId = r2.personId := by
    have h2 := congrArg FairnessRec.personId hr
    simpa [eraseDate] using h2
  have hta : r1.totalAssignments = r2.totalAssignments := by
    have h2 := congrArg FairnessRec.totalAssignments hr
    simpa [eraseDate] using h2
  have htdp : r1.totalDifficultyPoints = r2.totalDifficultyPoints := by
    have h2 := congrArg FairnessRec.totalDifficultyPoints hr
    simpa [eraseDate] using h2
  have hcs : r1.consecutiveStandby = r2.consecutiveStandby := by
    have h2 := congrArg FairnessRec.consecutiveStandby hr
    simpa [eraseDate] using h2
  simp only [updateFairnessRecord, postTypeOf, hposts, hpts, hpid, hta, htdp, hcs]
  cases hpost : s2.posts.find? (fun p => p.id == postId) with
  | none => simp [eraseDate]
  | some p =>
    cases hfk : p.postTypeId with
    | none => simp [hfk]
    | some i =>
      cases hpt : s2.postTypes.find? (fun pt => pt.id == i) with
      | none => simp [hfk, hpt]
      | some pt =>
        by_cases hname : pt.name = "Stand by"
        · simp [hfk, hpt, hname, eraseDate]
        · simp [hfk, hpt, hname, eraseDate]

/-- The list update lifts date-erased agreement of the record update
to date-erased agreement of the whole fairness table. -/
theorem updateFairnessList_erase (u1 u2 : FairnessRec → Option FairnessRec) (pid : Nat)
    (hu : ∀ r1 r2, eraseDate r1 = eraseDate r2 →
      (u1 r1).map eraseDate = (u2 r2).map eraseDate) :
    ∀ (l1 l2 : List FairnessRec), l1.map eraseDate = l2.map eraseDate →
      (updateFairnessList u1 pid l1).map (List.map eraseDate) =
        (updateFairnessList u2 pid l2).map (List.map eraseDate) := by
  intro l1
  induction l1 with
  | nil =>
    intro l2 h
    have hl2 : l2 = [] := by
      cases l2 with
      | nil => rfl
      | cons x xs => simp at h
    subst hl2
    simp only [updateFairnessList]
    calc ((u1 (freshFairness pid)).map (fun r => [r])).map (List.map eraseDate)
        = ((u1 (freshFairness pid)).map eraseDate).map (fun r => [r]) := by
          cases u1 (freshFairness pid) <;> rfl
      _ = ((u2 (freshFairness pid)).map eraseDate).map (fun r => [r]) := by
          rw [hu (freshFairness pid) (freshFairness pid) rfl]
      _ = ((u2 (freshFairness pid)).map (fun r => [r])).map (List.map eraseDate) := by
          cases u2 (freshFairness pid) <;> rfl
  | cons r1 rs1 ih =>
    intro l2 h
    cases l2 with
    | nil => simp at h
    | cons r2 rs2 =>
      simp only [List.map, List.cons.injEq] at h
      obtain ⟨hhead, htail⟩ := h
      have hpid : r1.personId = r2.personId := by
        have h2 := congrArg FairnessRec.personId hhead
        simpa [eraseDate] using h2
      simp only [updateFairnessList, hpid]
      by_cases hb : (r2.personId == pid) = true
      · rw [if_pos hb, if_pos hb]
        calc ((u1 r1).map (fun r => r :: rs1)).map (List.map eraseDate)
            = ((u1 r1).map eraseDate).map (fun x => x :: rs1.map eraseDate) := by
              cases u1 r1 <;> rfl
          _ = ((u2 r2).map eraseDate).map (fun x => x :: rs1.map eraseDate) := by
              rw [hu r1 r2 hhead]
          _ = ((u2 r2).map eraseDate).map (fun x => x :: rs2.map eraseDate) := by
              rw [htail]
          _ = ((u2 r2).map (fun r => r :: rs2)).map (List.map eraseDate) := by
              cases u2 r2 <;> rfl
      · rw [if_neg hb, if_neg hb]
        calc ((updateFairnessList u1 pid rs1).map (fun rs => r1 :: rs)).map (List.map eraseDate)
            = ((updateFairnessList u1 pid rs1).map (List.map eraseDate)).map
                (fun rs => eraseDate r1 :: rs) := by
              cases updateFairnessList u1 pid rs1 <;> rfl
          _ = ((updateFairnessList u2 pid rs2).map (List.map eraseDate)).map
                (fun rs => eraseDate r1 :: rs) := by
              rw [ih rs2 htail]
          _ = ((updateFairnessList u2 pid rs2).map (List.map eraseDate)).map
                (fun rs => eraseDate r2 :: rs) := by
              rw [hhead]
          _ = ((updateFairnessList u2 pid rs2).map (fun rs => r2 :: rs)).map
                (List.map eraseDate) := by
              cases updateFairnessList u2 pid rs2 <;> rfl

/-- Store-level lift of the date-erased simulation for one update. -/
theorem updateFairnessTracking_erase (s1 s2 : Store) (pid postId : Nat) (t1 t2 : Int)
    (hposts : s1.posts = s2.posts) (hpts : s1.postTypes = s2.postTypes)
    (hf : s1.fairness.map eraseDate = s2.fairness.map eraseDate) :
    (updateFairnessTracking s1 pid postId t1).map (fun st => st.fairness.map eraseDate) =
      (updateFairnessTracking s2 pid postId t2).map (fun st => st.fairness.map eraseDate) := by
  have key := updateFairnessList_erase (updateFairnessRecord s1 postId t1)
    (updateFairnessRecord s2 postId t2) pid
    (fun r1 r2 hr => updateFairnessRecord_erase s1 s2 postId t1 t2 r1 r2 hposts hpts hr)
    s1.fairness s2.fairness hf
  simp only [updateFairnessTracking]
  calc ((updateFairnessList (updateFairnessRecord s1 postId t1) pid s1.fairness).map
          (fun fl => { s1 with fairness := fl })).map (fun st => st.fairness.map eraseDate)
      = (updateFairnessList (updateFairnessRecord s1 postId t1) pid s1.fairness).map
          (List.map eraseDate) := by
        cases updateFairnessList (updateFairnessRecord s1 postId t1) pid s1.fairness <;> rfl
    _ = (updateFairnessList (updateFairnessRecord s2 postId t2) pid s2.fairness).map
          (List.map eraseDate) := key
    _ = ((updateFairnessList (updateFairnessRecord s2 postId t2) pid s2.fairness).map
          (fun fl => { s2 with fairness := fl })).map (fun st => st.fairness.map eraseDate) := by
        cases updateFairnessList (updateFairnessRecord s2 postId t2) pid s2.fairness <;> rfl

/-- Replaying the same assignments at two different instants yields
fairness tables that agree once dates are erased. -/
theorem replayAssignments_erase :
    ∀ (l : List Assignment) (s1 s2 : Store) (t1 t2 : Int),
      s1.posts = s2.posts → s1.postTypes = s2.postTypes →
      s1.fairness.map eraseDate = s2.fairness.map eraseDate →
      (replayAssignments s1 t1 l).map (fun st => st.fairness.map eraseDate) =
        (replayAssignments s2 t2 l).map (fun st => st.fairness.map eraseDate) := by
  intro l
  induction l with
  | nil =>
    intro s1 s2 t1 t2 hposts hpts hf
    simpa only [replayAssignments, Option.map_some] using congrArg some hf
  | cons a rest ih =>
    intro s1 s2 t1 t2 hposts hpts hf
    simp only [replayAssignments]
    have key := updateFairnessTracking_erase s1 s2 a.personId a.postId t1 t2 hposts hpts hf
    cases h1 : updateFairnessTracking s1 a.personId a.postId t1 with
    | none =>
      rw [h1] at key
      cases h2 : updateFairnessTracking s2 a.personId a.postId t2 with
      | none => rfl
      | some o2 => rw [h2] at key; simp at key
    | some o1 =>
      rw [h1] at key
      cases h2 : updateFairnessTracking s2 a.personId a.postId t2 with
      | none => rw [h2] at key; simp at key
      | some o2 =>
        rw [h2] at key
        simp only [Option.map_some', Option.some.injEq] at key
        obtain ⟨g1, g2, g3, g4⟩ :=
          updateFairnessTracking_static s1 o1 a.personId a.postId t1 h1
        obtain ⟨k1, k2, k3, k4⟩ :=
          updateFairnessTracking_static s2 o2 a.personId a.postId t2 h2
        exact ih o1 o2 t1 t2 (g3.trans (hposts.trans k3.symm))
          (g2.trans (hpts.trans k2.symm)) key

/-- C4, amended: two consecutive full recalculations with no writes in
between yield FairnessTracking states that are identical in every
field except last_assignment_date, which is stamped with each run's
clock; with the clock held fixed the states are fully identical, and
no other table changes. -/
theorem c4_recalculate_idempotent_mod_dates (s : Store) (t1 t2 : Int) (s1 s2 : Store)
    (h1 : recalculateFairness s t1 = some s1)
    (h2 : recalculateFairness s1 t2 = some s2) :
    s1.fairness.map eraseDate = s2.fairness.map eraseDate ∧
    s2.personnel = s1.personnel ∧ s2.postTypes = s1.postTypes ∧
    s2.posts = s1.posts ∧ s2.assignments = s1.assignments ∧
    (t1 = t2 → s2 = s1) := by
  simp only [recalculateFairness] at h1 h2
  obtain ⟨e1, e2, e3, e4⟩ := replayAssignments_static s.assignments _ s1 t1 h1
  obtain ⟨f1, f2, f3, f4⟩ := replayAssignments_static s1.assignments _ s2 t2 h2
  have hass : s1.assignments = s.assignments := e4
  have hstart : ({ s1 with fairness := [] } : Store) = { s with fairness := [] } := by
    show Store.mk s1.personnel s1.postTypes s1.posts s1.assignments [] =
      Store.mk s.personnel s.postTypes s.posts s.assignments []
    rw [e1, e2, e3, e4]
  rw [hstart, hass] at h2
  have key := replayAssignments_erase s.assignments { s with fairness := [] }
    { s with fairness := [] } t1 t2 rfl rfl rfl
  rw [h1, h2] at key
  simp only [Option.map_some', Option.some.injEq] at key
  refine ⟨key, f1, f2, f3, f4, ?_⟩
  intro ht
  subst ht
  exact Option.some.inj (h2.symm.trans h1)

/-- C4, witness: on c4Store, with the clock held at instant 0 for both
runs, the two recalculations agree exactly. -/
theorem c4_witness :
    c4After1.fairness.map eraseDate = c4After1.fairness.map eraseDate ∧
    c4After1.personnel = c4After1.personnel ∧
    c4After1.postTypes = c4After1.postTypes ∧
    c4After1.posts = c4After1.posts ∧
    c4After1.assignments = c4After1.assignments ∧
    ((0 : Int) = 0 → c4After1 = c4After1) :=
  c4_recalculate_idempotent_mod_dates c4Store 0 0 c4After1 c4After1
    (by decide) (by decide)

/-- Processing one rank-name pair never touches the read-only tables,
never changes the current section, and only appends assignments. -/
theorem processMatch_mono (ctx : ParseCtx) (key : String) (st st2 : LoopState)
    (m : String × String) (h : processMatch ctx key st m = some st2) :
    st2.cur = st.cur ∧ staticEq st2.store st.store ∧
    ∀ a ∈ st.store.assignments, a ∈ st2.store.assignments := by
  simp only [processMatch] at h
  split at h
  · cases h; exact ⟨rfl, ⟨rfl, rfl, rfl⟩, fun a ha => ha⟩
  · split at h
    · cases h; exact ⟨rfl, ⟨rfl, rfl, rfl⟩, fun a ha => ha⟩
    · split at h
      · cases h; exact ⟨rfl, ⟨rfl, rfl, rfl⟩, fun a ha => ha⟩
      · split at h
        · cases h; exact ⟨rfl, ⟨rfl, rfl, rfl⟩, fun a ha => ha⟩
        · split at h
          · cases h; exact ⟨rfl, ⟨rfl, rfl, rfl⟩, fun a ha => ha⟩
          · split at h
            · cases h
            · cases h
              rename_i store3 hupd
              obtain ⟨g1, g2, g3, g4⟩ :=
                updateFairnessTracking_static _ store3 _ _ _ hupd
              refine ⟨rfl, ⟨g1, g2, g3⟩, ?_⟩
              intro a ha
              rw [g4]
              exact List.mem_append_left _ ha

/-- Processing the pairs of one line: same frame facts as for one pair. -/
theorem processMatches_mono (ctx : ParseCtx) (key : String) :
    ∀ (ms : List (String × String)) (st st2 : LoopState),
      processMatches ctx key st ms = some st2 →
      st2.cur = st.cur ∧ staticEq st2.store st.store ∧
      ∀ a ∈ st.store.assignments, a ∈ st2.store.assignments := by
  intro ms
  induction ms with
  | nil =>
    intro st st2 h
    simp only [processMatches] at h
    cases h
    exact ⟨rfl, ⟨rfl, rfl, rfl⟩, fun a ha => ha⟩
  | cons m rest ih =>
    intro st st2 h
    simp only [processMatches] at h
    cases hm : processMatch ctx key st m with
    | none => rw [hm] at h; cases h
    | some stm =>
      rw [hm] at h
      obtain ⟨c1, ⟨p1, p2, p3⟩, sub1⟩ := processMatch_mono ctx key st stm m hm
      obtain ⟨c2, ⟨q1, q2, q3⟩, sub2⟩ := ih stm st2 h
      exact ⟨c2.trans c1, ⟨q1.trans p1, q2.trans p2, q3.trans p3⟩,
        fun a ha => sub2 a (sub1 a ha)⟩

/-- Processing one line leaves the read-only tables unchanged and only
appends assignments. -/
theorem processLine_mono (ctx : ParseCtx) (st st2 : LoopState) (line : String)
    (h : processLine ctx st line = some st2) :
    staticEq st2.store st.store ∧
    ∀ a ∈ st.store.assignments, a ∈ st2.store.assignments := by
  simp only [processLine] at h
  split at h
  · cases h; exact ⟨⟨rfl, rfl, rfl⟩, fun a ha => ha⟩
  · split at h
    · cases h; exact ⟨⟨rfl, rfl, rfl⟩, fun a ha => ha⟩
    · split at h
      · cases h; exact ⟨⟨rfl, rfl, rfl⟩, fun a ha => ha⟩
      · split at h
        · cases h; exact ⟨⟨rfl, rfl, rfl⟩, fun a ha => ha⟩
        · obtain ⟨_, hstat, hsub⟩ := processMatches_mono ctx _ _ st st2 h
          exact ⟨hstat, hsub⟩

/-- Running a list of lines leaves the read-only tables unchanged and
only appends assignments. -/
theorem runLines_mono (ctx : ParseCtx) :
    ∀ (lines : List String) (st st2 : LoopState),
      runLines ctx st lines = some st2 →
      staticEq st2.store st.store ∧
      ∀ a ∈ st.store.assignments, a ∈ st2.store.assignments := by
  intro lines
  induction lines with
  | nil =>
    intro st st2 h
    simp only [runLines] at h
    cases h
    exact ⟨⟨rfl, rfl, rfl⟩, fun a ha => ha⟩
  | cons l ls ih =>
    intro st st2 h
    simp only [runLines] at h
    cases hl : processLine ctx st l with
    | none => rw [hl] at h; cases h
    | some stm =>
      rw [hl] at h
      obtain ⟨⟨p1, p2, p3⟩, sub1⟩ := processLine_mono ctx st stm l hl
      obtain ⟨⟨q1, q2, q3⟩, sub2⟩ := ih stm st2 h
      exact ⟨⟨q1.trans p1, q2.trans p2, q3.trans p3⟩, fun a ha => sub2 a (sub1 a ha)⟩

/-- Replaying one rank-name pair against the final store of a
successful run is a no-op: every triple the pair could create is
already present, so the duplicate check skips it. -/
theorem processMatch_skip (ctx : ParseCtx) (key : String) (st1 st1b : LoopState)
    (m : String × String) (c2 : Nat) (S : Store)
    (h : processMatch ctx key st1 m = some st1b)
    (hstat : staticEq st1.store S)
    (hmem : ∀ a ∈ st1b.store.assignments, a ∈ S.assignments) :
    processMatch ctx key ⟨st1.cur, c2, S⟩ m = some ⟨st1.cur, c2, S⟩ := by
  obtain ⟨hper, hpts, hposts⟩ := hstat
  simp only [processMatch] at h ⊢
  split at h
  · rename_i hres
    simp only [hres]
  · rename_i person hres
    split at h
    · rename_i hmapng
      simp only [hres, hmapng]
    · rename_i tp hmapng
      split at h
      · rename_i hpt
        simp only [hres, hmapng, hpt]
      · rename_i pt hpt
        split at h
        · rename_i hpost
          simp only [hres, hmapng, hpt, ← hposts, hpost]
        · rename_i post hpost
          split at h
          · rename_i a0 hex
            cases h
            have ha0mem : a0 ∈ st1.store.assignments := List.mem_of_find?_eq_some hex
            have ha0p := List.find?_some hex
            have ha0S : a0 ∈ S.assignments := hmem a0 ha0mem
            have hfS : ∃ a1, S.assignments.find? (fun a =>
                a.personId == person.id && a.postId == post.id &&
                a.dutyDate == ctx.dutyDate) = some a1 := by
              cases hf : S.assignments.find? (fun a =>
                  a.personId == person.id && a.postId == post.id &&
                  a.dutyDate == ctx.dutyDate) with
              | none =>
                exact absurd ha0p (by simpa using List.find?_eq_none.mp hf a0 ha0S)
              | some a1 => exact ⟨a1, rfl⟩
            obtain ⟨a1, hf1⟩ := hfS
            simp only [hres, hmapng, hpt, ← hposts, hpost, hf1]
          · rename_i hex
            split at h
            · cases h
            · rename_i store3 hupd
              cases h
              obtain ⟨g1, g2, g3, g4⟩ :=
                updateFairnessTracking_static _ store3 _ _ _ hupd
              have haNew : (⟨person.id, post.id, ctx.dutyDate, "06:00", "18:00",
                  "assigned", "Imported from group chat"⟩ : Assignment) ∈ S.assignments := by
                apply hmem
                show _ ∈ store3.assignments
                rw [g4]
                exact List.mem_append_right _ (List.mem_singleton.mpr rfl)
              have hfS : ∃ a1, S.assignments.find? (fun a =>
                  a.personId == person.id && a.postId == post.id &&
                  a.dutyDate == ctx.dutyDate) = some a1 := by
                cases hf : S.assignments.find? (fun a =>
                    a.personId == person.id && a.postId == post.id &&
                    a.dutyDate == ctx.dutyDate) with
                | none =>
                  have := List.find?_eq_none.mp hf _ haNew
                  simp at this
                | some a1 => exact ⟨a1, rfl⟩
              obtain ⟨a1, hf1⟩ := hfS
              simp only [hres, hmapng, hpt, ← hposts, hpost, hf1]

/-- Replaying the pairs of one line against the final store is a
no-op. -/
theorem processMatches_skip (ctx : ParseCtx) (key : String) :
    ∀ (ms : List (String × String)) (st1 st1b : LoopState) (c2 : Nat) (S : Store),
      processMatches ctx key st1 ms = some st1b →
      staticEq st1.store S →
      (∀ a ∈ st1b.store.assignments, a ∈ S.assignments) →
      processMatches ctx key ⟨st1.cur, c2, S⟩ ms = some ⟨st1.cur, c2, S⟩ := by
  intro ms
  induction ms with
  | nil =>
    intro st1 st1b c2 S h hstat hmem
    simp only [processMatches]
  | cons m rest ih =>
    intro st1 st1b c2 S h hstat hmem
    simp only [processMatches] at h ⊢
    cases hm : processMatch ctx key st1 m with
    | none => rw [hm] at h; cases h
    | some stm =>
      rw [hm] at h
      obtain ⟨hcur, hstatm, hsub1⟩ := processMatch_mono ctx key st1 stm m hm
      obtain ⟨hcur2, hstat2, hsub2⟩ := processMatches_mono ctx key rest stm st1b h
      have hmemStm : ∀ a ∈ stm.store.assignments, a ∈ S.assignments :=
        fun a ha => hmem a (hsub2 a ha)
      have hskip1 := processMatch_skip ctx key st1 stm m c2 S hm hstat hmemStm
      rw [hskip1]
      have hstatSm : staticEq stm.store S :=
        ⟨hstatm.1.trans hstat.1, hstatm.2.1.trans hstat.2.1, hstatm.2.2.trans hstat.2.2⟩
      have hrest := ih stm st1b c2 S h hstatSm hmem
      rw [hcur] at hrest
      exact hrest

/-- Replaying one line against the final store is a no-op apart from
the section tracking, which advances as in the first run. -/
theorem processLine_skip (ctx : ParseCtx) (st1 st1b : LoopState) (line : String)
    (c2 : Nat) (S : Store)
    (h : processLine ctx st1 line = some st1b)
    (hstat : staticEq st1.store S)
    (hmem : ∀ a ∈ st1b.store.assignments, a ∈ S.assignments) :
    processLine ctx ⟨st1.cur, c2, S⟩ line = some ⟨st1b.cur, c2, S⟩ := by
  simp only [processLine] at h ⊢
  split at h
  · rename_i hemp
    cases h
    rw [if_pos hemp]
  · rename_i hemp
    rw [if_neg hemp]
    split at h
    · rename_i hdr hh
      cases h
      try simp only [hh]
    · rename_i hh
      try simp only [hh]
      split at h
      · rename_i hcur
        cases h
        try rw [hcur]
      · rename_i key hcur
        try rw [hcur]
        split at h
        · rename_i hnoise
          cases h
          rw [if_pos hnoise]
          try rw [hcur]
        · rename_i hnoise
          rw [if_neg hnoise]
          have hcurEq := (processMatches_mono ctx key (findMatches (pyStrip line))
            st1 st1b h).1
          have hskip := processMatches_skip ctx key (findMatches (pyStrip line))
            st1 st1b c2 S h hstat hmem
          rw [hcur] at hskip
          rw [hskip, hcurEq, hcur]

/-- Replaying the whole line list against the final store of a
successful run returns that store unchanged with zero creations. -/
theorem runLines_skip (ctx : ParseCtx) :
    ∀ (lines : List String) (st1 st1f : LoopState) (c2 : Nat),
      runLines ctx st1 lines = some st1f →
      runLines ctx ⟨st1.cur, c2, st1f.store⟩ lines = some ⟨st1f.cur, c2, st1f.store⟩ := by
  intro lines
  induction lines with
  | nil =>
    intro st1 st1f c2 h
    simp only [runLines] at h ⊢
    cases h
    rfl
  | cons l ls ih =>
    intro st1 st1f c2 h
    simp only [runLines] at h ⊢
    cases hl : processLine ctx st1 l with
    | none => rw [hl] at h; cases h
    | some st2 =>
      rw [hl] at h
      obtain ⟨hstat2, hsub1⟩ := processLine_mono ctx st1 st2 l hl
      obtain ⟨hstatf, hsub2⟩ := runLines_mono ctx ls st2 st1f h
      have hstat1f : staticEq st1.store st1f.store :=
        ⟨(hstatf.1.trans hstat2.1).symm, (hstatf.2.1.trans hstat2.2.1).symm,
         (hstatf.2.2.trans hstat2.2.2).symm⟩
      have hskip := processLine_skip ctx st1 st2 l c2 st1f.store hl hstat1f hsub2
      rw [hskip]
      exact ih st2 st1f c2 h

/-- C5: re-importing the identical chat text for the identical duty
date (same parsed date and clock) creates nothing: the second run
returns a count of zero and the store exactly as the first run left
it, because every candidate triple already exists and is skipped. -/
theorem c5_ingest_idempotent (s : Store) (text dstr : String) (today : Date)
    (now : Int) (n : Nat) (s1 : Store)
    (h : parseAndCreateChatAssignments s text dstr today now = some (n, s1)) :
    parseAndCreateChatAssignments s1 text dstr today now = some (0, s1) := by
  simp only [parseAndCreateChatAssignments] at h ⊢
  cases hmap : buildPersonnelMap (activePersonnelPage s) with
  | none => rw [hmap] at h; cases h
  | some pmap =>
    simp only [hmap] at h
    cases hrun : runLines
        { pmap := pmap, ptypes := buildPostTypesDict s.postTypes,
          dutyDate := match parseIsoDate dstr with | some d => d | none => today,
          now := now }
        { cur := none, created := 0, store := s } (pySplitLines (pyStrip text)) with
    | none => rw [hrun] at h; cases h
    | some stf =>
      rw [hrun] at h
      cases h
      obtain ⟨⟨hper, hpts, hposts⟩, hsub⟩ :=
        runLines_mono _ (pySplitLines (pyStrip text)) _ stf hrun
      have hpage : activePersonnelPage stf.store = activePersonnelPage s := by
        simp only [activePersonnelPage, hper]
      simp only [hpage, hmap, hpts]
      have hskip2 : runLines
          { pmap := pmap, ptypes := buildPostTypesDict s.postTypes,
            dutyDate := match parseIsoDate dstr with | some d => d | none => today,
            now := now }
          { cur := none, created := 0, store := stf.store }
          (pySplitLines (pyStrip text)) = some { cur := stf.cur, created := 0, store := stf.store } :=
        runLines_skip
          { pmap := pmap, ptypes := buildPostTypesDict s.postTypes,
            dutyDate := match parseIsoDate dstr with | some d => d | none => today,
            now := now }
          (pySplitLines (pyStrip text)) { cur := none, created := 0, store := s } stf 0 hrun
      rw [hskip2]

/-- C5, witness: re-importing the two-person roster into the store the
first import produced creates nothing and leaves the store as it was. -/
theorem c5_witness :
    parseAndCreateChatAssignments c1After "SOG:\nSGT Lastre\n\nCQ:\nSPC Miller"
      "2024-01-15" (2024, 1, 15) 0 = some (0, c1After) :=
  c5_ingest_idempotent c1Store "SOG:\nSGT Lastre\n\nCQ:\nSPC Miller" "2024-01-15"
    (2024, 1, 15) 0 2 c1After (by decide)

/-- C7, witness: the zero-assignment row of the c6Store ranking. -/
theorem c7_witness :
    List.Sorted scoreLE (getFairnessStats c6Store c6Now) ∧
    (((⟨1, "SPC A", 0, 0, none, 0, 0⟩ : FairnessStatsRow).fairnessScore = 0 ∧
      (⟨1, "SPC A", 0, 0, none, 0, 0⟩ : FairnessStatsRow).totalAssignments = 0 ∧
      ∀ t ∈ c6Store.fairness,
        t.personId ≠ (⟨1, "SPC A", 0, 0, none, 0, 0⟩ : FairnessStatsRow).personId) ∨
     (∃ t ∈ c6Store.fairness,
        t.personId = (⟨1, "SPC A", 0, 0, none, 0, 0⟩ : FairnessStatsRow).personId ∧
        (⟨1, "SPC A", 0, 0, none, 0, 0⟩ : FairnessStatsRow).fairnessScore =
          specFairnessScore c6Now t)) ∧
    (∀ p ∈ c6Store.personnel, p.isActive = true →
      ∃ e2 ∈ getFairnessStats c6Store c6Now, e2.personId = p.id) :=
  c7_fairness_scores c6Store c6Now ⟨1, "SPC A", 0, 0, none, 0, 0⟩ (by decide)

end DutyTracker
